import Mathlib

/-!
Verification of the paper-corpus pipeline of the model-stealing-papers
repository: the status state machine of `scripts/pipeline/state.py`, the
citation-graph expansion of `scripts/pipeline/expand.py`, the discovery sweep
of `scripts/pipeline/discover.py`, the category validation of
`scripts/pipeline/classify.py`, and the dedup/merge engine of
`fetch_papers.py`.

Stores are shallow-embedded as insertion-ordered association lists, mirroring
Python dict semantics (insertion keeps order, in-place update keeps position).
Python truthiness of optional strings (None and "" are falsy) is modelled
explicitly by `pyTruthy`.
-/

namespace MSP

/-- Python truthiness of an optional string: `None` and `""` are falsy. -/
def pyTruthy : Option String → Bool
  | none => false
  | some s => s ≠ ""

/-! ## Association-list primitives (Python dict semantics) -/

/-- Lookup of a key in an insertion-ordered association list. -/
def alookup {α : Type} : List (String × α) → String → Option α
  | [], _ => none
  | (k, v) :: rest, id => if id = k then some v else alookup rest id

/-- Update the value at a key in place (no-op when the key is absent). -/
def aupdate {α : Type} : List (String × α) → String → (α → α) → List (String × α)
  | [], _, _ => []
  | (k, v) :: rest, id, f =>
      if id = k then (k, f v) :: rest else (k, v) :: aupdate rest id f

/-- Python dict assignment `m[id] = v`: replace in place, else append. -/
def aset {α : Type} : List (String × α) → String → α → List (String × α)
  | [], id, v => [(id, v)]
  | (k, r) :: rest, id, v =>
      if id = k then (k, v) :: rest else (k, r) :: aset rest id v

theorem alookup_aupdate {α : Type} (m : List (String × α)) (id : String)
    (f : α → α) (q : String) :
    alookup (aupdate m id f) q =
      if q = id then (alookup m q).map f else alookup m q := by
  induction m with
  | nil => simp [alookup, aupdate]
  | cons kv rest ih =>
    obtain ⟨k, v⟩ := kv
    by_cases hi : id = k
    · subst hi
      by_cases hq : q = id <;> simp [alookup, aupdate, hq]
    · by_cases hq : q = k
      · subst hq
        have hqi : ¬ q = id := fun h => hi (h ▸ rfl)
        simp [alookup, aupdate, hi, hqi]
      · simp [alookup, aupdate, hi, hq, ih]

theorem alookup_aset {α : Type} (m : List (String × α)) (i : String) (v : α)
    (q : String) :
    alookup (aset m i v) q = if q = i then some v else alookup m q := by
  induction m with
  | nil =>
    by_cases hq : q = i <;> simp [alookup, aset, hq]
  | cons kv rest ih =>
    obtain ⟨k, r⟩ := kv
    by_cases hi : i = k
    · subst hi
      by_cases hq : q = i <;> simp [alookup, aset, hq]
    · by_cases hq : q = k
      · subst hq
        have : ¬ q = i := fun h => hi (h ▸ rfl)
        simp [alookup, aset, hi, this]
      · simp [alookup, aset, hi, hq, ih]

theorem aset_self {α : Type} (m : List (String × α)) (i : String) (v : α)
    (h : alookup m i = some v) : aset m i v = m := by
  induction m with
  | nil => simp [alookup] at h
  | cons kv rest ih =>
    obtain ⟨k, r⟩ := kv
    by_cases hi : i = k
    · subst hi
      simp [alookup] at h
      simp [aset, h]
    · simp [alookup, hi] at h
      simp [aset, hi, ih h]

theorem alookup_append_ne {α : Type} (m : List (String × α)) (i : String)
    (v : α) (q : String) (h : q ≠ i) :
    alookup (m ++ [(i, v)]) q = alookup m q := by
  induction m with
  | nil => simp [alookup, h]
  | cons kv rest ih =>
    obtain ⟨k, r⟩ := kv
    by_cases hq : q = k <;> simp [alookup, hq, ih]

theorem alookup_append_self {α : Type} (m : List (String × α)) (i : String)
    (v : α) (h : alookup m i = none) :
    alookup (m ++ [(i, v)]) i = some v := by
  induction m with
  | nil => simp [alookup]
  | cons kv rest ih =>
    obtain ⟨k, r⟩ := kv
    by_cases hq : i = k
    · simp [alookup, hq] at h
    · simp [alookup, hq] at h ⊢
      exact ih h

theorem alookup_append_cases {α : Type} (m : List (String × α)) (i : String)
    (v : α) (q : String) (r : α) (h : alookup (m ++ [(i, v)]) q = some r) :
    alookup m q = some r ∨ (q = i ∧ r = v) := by
  induction m with
  | nil =>
    simp [alookup] at h
    by_cases hq : q = i
    · simp [hq] at h
      exact Or.inr ⟨hq, h.symm⟩
    · simp [alookup, hq] at h
  | cons kv rest ih =>
    obtain ⟨k, u⟩ := kv
    by_cases hq : q = k
    · simp [alookup, hq] at h ⊢
      exact Or.inl h
    · simp [alookup, hq] at h ⊢
      exact ih h

/-! ## State store (`scripts/pipeline/state.py`) -/

/-- Status values of a paper record (`Status` literal type in `state.py`). -/
inductive Status : Type
  | pending
  | fetched
  | classified
  | expanded
  | discarded
deriving DecidableEq

/-- Position of a status in the order
pending -> fetched -> classified -> expanded/discarded of the state machine
(the two final states share the terminal rank). -/
def statusRank : Status → Nat
  | .pending => 0
  | .fetched => 1
  | .classified => 2
  | .expanded => 3
  | .discarded => 3

/-- A paper record as built by `PaperState.add_paper` (`state.py`), together
with the `s2_paper_id` field that the fetch stage may attach later. -/
structure PaperRecord : Type where
  paper_id : String
  title : String
  abstract : Option String
  year : Option Int
  venue : Option String
  authors : List String
  url : Option String
  source : String
  source_paper_id : Option String
  depth : Nat
  status : Status
  classification : Option String
  classification_confidence : Option String
  added_at : Option String
  fetched_at : Option String
  classified_at : Option String
  expanded_at : Option String
  citations_checked_at : Option String
  s2_paper_id : Option String
deriving DecidableEq

/-- The `papers` dict of `PaperState`: an insertion-ordered map from
paper id to record. -/
abbrev Store := List (String × PaperRecord)

/-- The record literal built by `PaperState.add_paper`; `now` stands for
`datetime.now().isoformat()`. -/
def mkPaperRecord (paper_id title source : String)
    (source_paper_id abstract : Option String) (year : Option Int)
    (venue : Option String) (authors : List String) (url : Option String)
    (depth : Nat) (now : String) : PaperRecord :=
  { paper_id := paper_id
    title := title
    abstract := abstract
    year := year
    venue := venue
    authors := authors
    url := url
    source := source
    source_paper_id := source_paper_id
    depth := depth
    status := if pyTruthy abstract then .fetched else .pending
    classification := none
    classification_confidence := none
    added_at := some now
    fetched_at := if pyTruthy abstract then some now else none
    classified_at := none
    expanded_at := none
    citations_checked_at := none
    s2_paper_id := none }

/-- `PaperState.add_paper`: returns `False` and leaves the dict untouched when
the id exists, else inserts the new record and returns `True`. -/
def add_paper (st : Store) (paper_id title source : String)
    (source_paper_id abstract : Option String) (year : Option Int)
    (venue : Option String) (authors : List String) (url : Option String)
    (depth : Nat) (now : String) : Store × Bool :=
  if (alookup st paper_id).isSome then (st, false)
  else
    (st ++ [(paper_id,
      mkPaperRecord paper_id title source source_paper_id abstract year venue
        authors url depth now)], true)

/-- The benign metadata kwargs that the fetch stage passes to `set_fetched`
(an outer `none` means the keyword was not passed at the call site). -/
structure FetchMeta : Type where
  authors : Option (List String) := none
  year : Option (Option Int) := none
  venue : Option (Option String) := none
  url : Option (Option String) := none
deriving DecidableEq

/-- Application of the `**metadata` keyword arguments of `set_fetched`. -/
def applyMeta (m : FetchMeta) (r : PaperRecord) : PaperRecord :=
  { r with
    authors := m.authors.getD r.authors
    year := m.year.getD r.year
    venue := m.venue.getD r.venue
    url := m.url.getD r.url }

/-- `PaperState.set_fetched`: unconditionally resets the status of an existing
record to `fetched`, overwrites the abstract and stamps `fetched_at`. -/
def set_fetched (st : Store) (paper_id : String) (abstract : Option String)
    (meta : FetchMeta) (now : String) : Store :=
  aupdate st paper_id (fun r =>
    applyMeta meta
      { r with status := .fetched, abstract := abstract, fetched_at := some now })

/-- `PaperState.set_classified`: status becomes `discarded` when the category
is the sentinel `"NONE"`, else `classified`. -/
def set_classified (st : Store) (paper_id category confidence : String)
    (now : String) : Store :=
  aupdate st paper_id (fun r =>
    { r with
      status := if category = "NONE" then .discarded else .classified
      classification := some category
      classification_confidence := some confidence
      classified_at := some now })

/-- `PaperState.set_expanded`. -/
def set_expanded (st : Store) (paper_id : String) (now : String) : Store :=
  aupdate st paper_id (fun r =>
    { r with status := .expanded, expanded_at := some now })

/-- `PaperState.set_citations_checked`: stamps the watermark, status untouched. -/
def set_citations_checked (st : Store) (paper_id : String) (now : String) :
    Store :=
  aupdate st paper_id (fun r => { r with citations_checked_at := some now })

/-- Status of the record at an id, when present. -/
def statusOf (st : Store) (id : String) : Option Status :=
  (alookup st id).map PaperRecord.status

/-- One call to a status-mutating operation of `PaperState`. -/
inductive StateOp : Type
  | opFetched (id : String) (abstract : Option String) (meta : FetchMeta) (now : String)
  | opClassified (id : String) (category confidence now : String)
  | opExpanded (id : String) (now : String)
  | opChecked (id : String) (now : String)

/-- Apply one operation to the store. -/
def applyOp (st : Store) : StateOp → Store
  | .opFetched id abstract meta now => set_fetched st id abstract meta now
  | .opClassified id category confidence now =>
      set_classified st id category confidence now
  | .opExpanded id now => set_expanded st id now
  | .opChecked id now => set_citations_checked st id now

/-- Apply a sequence of operations left to right. -/
def applyOps (ops : List StateOp) (st : Store) : Store :=
  ops.foldl applyOp st

theorem statusOf_applyOp_ne_pending (st : Store) (op : StateOp) (id : String)
    (h : statusOf st id ≠ some Status.pending) :
    statusOf (applyOp st op) id ≠ some Status.pending := by
  cases op with
  | opFetched pid abstract meta now =>
    simp only [applyOp, set_fetched, statusOf, alookup_aupdate]
    by_cases hid : id = pid
    · rw [if_pos hid]
      cases alookup st id with
      | none => simp
      | some r => simp [applyMeta]
    · rw [if_neg hid]
      exact h
  | opClassified pid category confidence now =>
    simp only [applyOp, set_classified, statusOf, alookup_aupdate]
    by_cases hid : id = pid
    · rw [if_pos hid]
      cases alookup st id with
      | none => simp
      | some r =>
        by_cases hc : category = "NONE" <;> simp [hc]
    · rw [if_neg hid]
      exact h
  | opExpanded pid now =>
    simp only [applyOp, set_expanded, statusOf, alookup_aupdate]
    by_cases hid : id = pid
    · rw [if_pos hid]
      cases alookup st id with
      | none => simp
      | some r => simp
    · rw [if_neg hid]
      exact h
  | opChecked pid now =>
    simp only [applyOp, set_citations_checked, statusOf, alookup_aupdate]
    by_cases hid : id = pid
    · rw [if_pos hid]
      cases halk : alookup st id with
      | none => simp
      | some r =>
        simp only [statusOf, halk, Option.map_some] at h
        simpa using h
    · rw [if_neg hid]
      exact h

/-- C1 (amended): none of the four status operations of `PaperState` ever sets
a record's status back to `pending`: for any sequence of calls to
`set_fetched`, `set_classified`, `set_expanded` and `set_citations_checked`, a
record whose status is not `pending` never returns to `pending`. (The full
claim — that status never moves to any earlier state — fails, because the
setters are unconditional; see the counterexample.) -/
theorem C1_no_return_to_pending (ops : List StateOp) (st : Store) (id : String)
    (h : statusOf st id ≠ some Status.pending) :
    statusOf (applyOps ops st) id ≠ some Status.pending := by
  induction ops generalizing st with
  | nil => exact h
  | cons op rest ih =>
    simp only [applyOps, List.foldl_cons]
    exact ih (applyOp st op) (statusOf_applyOp_ne_pending st op id h)

/-- Store with one paper `"p"` added with an abstract (so status `fetched`). -/
def c1Store0 : Store :=
  (add_paper [] "p" "T" "seed" none (some "a") none none [] none 0 "t0").1

/-- The same store after `set_classified("p", "ML05", "HIGH")`. -/
def c1Store1 : Store := set_classified c1Store0 "p" "ML05" "HIGH" "t1"

/-- C1 counterexample: calling `set_fetched` on a record whose status is
`classified` moves its status back to `fetched`, an earlier state in the order
pending -> fetched -> classified -> expanded/discarded, refuting the claim that
status never moves to an earlier state under arbitrary call sequences. -/
theorem C1_counterexample :
    statusOf c1Store1 "p" = some Status.classified ∧
    statusOf (set_fetched c1Store1 "p" none {} "t2") "p" = some Status.fetched ∧
    statusRank Status.fetched < statusRank Status.classified := by
  decide

/-- Witness for C1: the record `"p"`, classified in `c1Store1`, never shows
status `pending` again after further operations. -/
theorem C1_no_return_to_pending_witness :
    statusOf (applyOps [StateOp.opExpanded "p" "t3"] c1Store1) "p" ≠
      some Status.pending :=
  C1_no_return_to_pending [StateOp.opExpanded "p" "t3"] c1Store1 "p" (by decide)

/-- C2: `add_paper` with an already-present id returns `False` and leaves the
store completely unchanged (so every field of the existing record, its
`added_at` included, keeps its value); with a fresh id it returns `True` and
inserts a record whose initial status is `fetched` when a (non-empty) abstract
was supplied and `pending` otherwise, leaving every other id untouched. -/
theorem C2_add_paper (st : Store) (pid title source : String)
    (spid abstract : Option String) (year : Option Int) (venue : Option String)
    (authors : List String) (url : Option String) (depth : Nat) (now : String) :
    ((alookup st pid).isSome →
      add_paper st pid title source spid abstract year venue authors url depth
        now = (st, false)) ∧
    (alookup st pid = none →
      (add_paper st pid title source spid abstract year venue authors url depth
          now).2 = true ∧
      alookup (add_paper st pid title source spid abstract year venue authors
          url depth now).1 pid =
        some (mkPaperRecord pid title source spid abstract year venue authors
          url depth now) ∧
      (mkPaperRecord pid title source spid abstract year venue authors url
          depth now).status =
        (if pyTruthy abstract then Status.fetched else Status.pending) ∧
      ∀ q, q ≠ pid →
        alookup (add_paper st pid title source spid abstract year venue authors
            url depth now).1 q = alookup st q) := by
  constructor
  · intro h
    simp [add_paper, h]
  · intro h
    have hnot : ¬ (alookup st pid).isSome := by simp [h]
    refine ⟨by simp [add_paper, hnot], ?_, rfl, ?_⟩
    · simp only [add_paper, if_neg hnot]
      exact alookup_append_self st pid _ h
    · intro q hq
      simp only [add_paper, if_neg hnot]
      exact alookup_append_ne st pid _ q hq

/-- Witness for C2: adding `"p"` with an abstract to the empty store returns
`True` and stores the freshly built record. -/
theorem C2_add_paper_witness :
    (add_paper [] "p" "T" "seed" none (some "a") none none [] none 0 "t").2 =
      true ∧
    alookup (add_paper [] "p" "T" "seed" none (some "a") none none [] none 0
        "t").1 "p" =
      some (mkPaperRecord "p" "T" "seed" none (some "a") none none [] none 0
        "t") := by
  have h :=
    (C2_add_paper [] "p" "T" "seed" none (some "a") none none [] none 0 "t").2
      rfl
  exact ⟨h.1, h.2.1⟩

/-! ## Fetch/merge data model (`fetch_papers.py`) -/

/-- The `Paper` dataclass of `fetch_papers.py`. -/
structure Paper : Type where
  paper_id : String
  title : String
  abstract : Option String
  year : Option Int
  venue : Option String
  authors : List String
  citation_count : Int
  url : String
  pdf_url : Option String
  publication_date : Option String
  keywords_matched : List String
  first_seen : Option String := none
deriving DecidableEq

/-- The `existing`/`merged` dict of `merge_papers`, keyed by `paper_id`. -/
abbrev PaperDict := List (String × Paper)

/-- The ids of a batch of papers, in batch order. -/
def paperIds (l : List Paper) : List String := l.map (fun p => p.paper_id)

/-- The pre-pass of `merge_papers` that sets `first_seen` on existing papers
that lack it (Python-falsy: `None` or `""`). -/
def backfillFirstSeen (today : String) (m : PaperDict) : PaperDict :=
  m.map (fun kv =>
    (kv.1,
      if pyTruthy kv.2.first_seen then kv.2
      else { kv.2 with first_seen := some today }))

/-- Result of a merge: the merged dict plus the added/updated counters that
`merge_papers` reports. -/
structure MergeResult : Type where
  merged : PaperDict
  added : Nat
  updated : Nat
deriving DecidableEq

/-- The main loop of `merge_papers` over the incoming batch. -/
def mergeLoop (today : String) : PaperDict → List Paper → MergeResult
  | m, [] => ⟨m, 0, 0⟩
  | m, p :: rest =>
    match alookup m p.paper_id with
    | some old =>
      let p2 : Paper :=
        { p with
          first_seen :=
            if pyTruthy old.first_seen then old.first_seen else some today }
      let res := mergeLoop today (aset m p.paper_id p2) rest
      ⟨res.merged, res.added, res.updated + 1⟩
    | none =>
      let p2 : Paper := { p with first_seen := some today }
      let res := mergeLoop today (aset m p.paper_id p2) rest
      ⟨res.merged, res.added + 1, res.updated⟩

/-- `merge_papers` of `fetch_papers.py`; `today` stands for
`time.strftime("%Y-%m-%d")`. -/
def merge_papers (existing : PaperDict) (new_papers : List Paper)
    (today : String) : MergeResult :=
  mergeLoop today (backfillFirstSeen today existing) new_papers

theorem paperIds_cons (p : Paper) (l : List Paper) :
    paperIds (p :: l) = p.paper_id :: paperIds l := rfl

theorem mem_paperIds_of_mem (p : Paper) (l : List Paper) (h : p ∈ l) :
    p.paper_id ∈ paperIds l := List.mem_map_of_mem (fun p => p.paper_id) h

theorem mergeLoop_untouched (today : String) (batch : List Paper)
    (m : PaperDict) (id : String) (h : id ∉ paperIds batch) :
    alookup (mergeLoop today m batch).merged id = alookup m id := by
  induction batch generalizing m with
  | nil => simp [mergeLoop]
  | cons p rest ih =>
    have hne : id ≠ p.paper_id := by
      intro he
      exact h (by simp [paperIds, he])
    have hrest : id ∉ paperIds rest := by
      intro he
      exact h (by simp [paperIds] at he ⊢; exact Or.inr he)
    cases halk : alookup m p.paper_id with
    | some old =>
      simp only [mergeLoop, halk]
      rw [ih _ hrest, alookup_aset, if_neg hne]
    | none =>
      simp only [mergeLoop, halk]
      rw [ih _ hrest, alookup_aset, if_neg hne]

theorem mergeLoop_isSome (today : String) (batch : List Paper) (m : PaperDict)
    (id : String) (h : (alookup m id).isSome) :
    (alookup (mergeLoop today m batch).merged id).isSome := by
  induction batch generalizing m with
  | nil => simpa [mergeLoop] using h
  | cons p rest ih =>
    cases halk : alookup m p.paper_id with
    | some old =>
      simp only [mergeLoop, halk]
      refine ih _ ?_
      rw [alookup_aset]
      by_cases hid : id = p.paper_id <;> simp [hid, h]
    | none =>
      simp only [mergeLoop, halk]
      refine ih _ ?_
      rw [alookup_aset]
      by_cases hid : id = p.paper_id <;> simp [hid, h]

theorem mergeLoop_mem_update (today : String) (batch : List Paper)
    (m : PaperDict) (p : Paper) (old : Paper)
    (hnd : (paperIds batch).Nodup) (hp : p ∈ batch)
    (halk : alookup m p.paper_id = some old) :
    alookup (mergeLoop today m batch).merged p.paper_id =
      some { p with
        first_seen :=
          if pyTruthy old.first_seen then old.first_seen else some today } := by
  induction batch generalizing m with
  | nil => cases hp
  | cons q rest ih =>
    rw [paperIds_cons] at hnd
    have h1 : q.paper_id ∉ paperIds rest := (List.nodup_cons.mp hnd).1
    have hnd2 : (paperIds rest).Nodup := (List.nodup_cons.mp hnd).2
    rcases List.mem_cons.mp hp with hq | hq
    · subst hq
      simp only [mergeLoop, halk]
      rw [mergeLoop_untouched today rest _ _ h1, alookup_aset, if_pos rfl]
    · have hqid : q.paper_id ≠ p.paper_id := by
        intro he
        exact h1 (he ▸ mem_paperIds_of_mem p rest hq)
      have halk2 : ∀ v : Paper,
          alookup (aset m q.paper_id v) p.paper_id = some old := by
        intro v
        rw [alookup_aset, if_neg (fun he => hqid he.symm)]
        exact halk
      cases hq2 : alookup m q.paper_id with
      | some o2 =>
        simp only [mergeLoop, hq2]
        exact ih _ hnd2 hq (halk2 _)
      | none =>
        simp only [mergeLoop, hq2]
        exact ih _ hnd2 hq (halk2 _)

theorem mergeLoop_mem_add (today : String) (batch : List Paper)
    (m : PaperDict) (p : Paper)
    (hnd : (paperIds batch).Nodup) (hp : p ∈ batch)
    (halk : alookup m p.paper_id = none) :
    alookup (mergeLoop today m batch).merged p.paper_id =
      some { p with first_seen := some today } := by
  induction batch generalizing m with
  | nil => cases hp
  | cons q rest ih =>
    rw [paperIds_cons] at hnd
    have h1 : q.paper_id ∉ paperIds rest := (List.nodup_cons.mp hnd).1
    have hnd2 : (paperIds rest).Nodup := (List.nodup_cons.mp hnd).2
    rcases List.mem_cons.mp hp with hq | hq
    · subst hq
      simp only [mergeLoop, halk]
      rw [mergeLoop_untouched today rest _ _ h1, alookup_aset, if_pos rfl]
    · have hqid : q.paper_id ≠ p.paper_id := by
        intro he
        exact h1 (he ▸ mem_paperIds_of_mem p rest hq)
      have halk2 : ∀ v : Paper,
          alookup (aset m q.paper_id v) p.paper_id = none := by
        intro v
        rw [alookup_aset, if_neg (fun he => hqid he.symm)]
        exact halk
      cases hq2 : alookup m q.paper_id with
      | some o2 =>
        simp only [mergeLoop, hq2]
        exact ih _ hnd2 hq (halk2 _)
      | none =>
        simp only [mergeLoop, hq2]
        exact ih _ hnd2 hq (halk2 _)

/-- Every record of the dict carries a truthy `first_seen`. -/
def allSeen (m : PaperDict) : Prop :=
  ∀ kv ∈ m, pyTruthy kv.2.first_seen = true

theorem allSeen_backfill (today : String) (m : PaperDict) (ht : today ≠ "") :
    allSeen (backfillFirstSeen today m) := by
  intro kv hkv
  simp only [backfillFirstSeen, List.mem_map] at hkv
  obtain ⟨kv0, _, hkv0⟩ := hkv
  have hts : pyTruthy (some today) = true := by simp [pyTruthy, ht]
  rw [← hkv0]
  by_cases h : pyTruthy kv0.2.first_seen = true
  · simp [h]
  · simp [h, hts]

theorem backfill_of_allSeen (today : String) (m : PaperDict)
    (h : allSeen m) : backfillFirstSeen today m = m := by
  induction m with
  | nil => rfl
  | cons kv rest ih =>
    have h1 : pyTruthy kv.2.first_seen = true := h kv (List.mem_cons_self kv rest)
    have h2 : allSeen rest := fun x hx => h x (List.mem_cons_of_mem kv hx)
    simp only [backfillFirstSeen, List.map_cons, h1, if_pos]
    rw [show List.map _ rest = backfillFirstSeen today rest from rfl, ih h2]

theorem allSeen_aset (m : PaperDict) (i : String) (v : Paper)
    (hm : allSeen m) (hv : pyTruthy v.first_seen = true) :
    allSeen (aset m i v) := by
  induction m with
  | nil =>
    intro kv hkv
    simp only [aset, List.mem_singleton] at hkv
    rw [hkv]
    exact hv
  | cons kv0 rest ih =>
    obtain ⟨k, r⟩ := kv0
    have hm2 : allSeen rest := fun x hx => hm x (List.mem_cons_of_mem _ hx)
    by_cases hik : i = k
    · intro kv hkv
      simp only [aset, if_pos hik] at hkv
      rcases List.mem_cons.mp hkv with h | h
      · rw [h]
        exact hv
      · exact hm kv (List.mem_cons_of_mem _ h)
    · intro kv hkv
      simp only [aset, if_neg hik] at hkv
      rcases List.mem_cons.mp hkv with h | h
      · rw [h]
        exact hm (k, r) (List.mem_cons_self _ _)
      · exact ih hm2 kv h

theorem allSeen_mergeLoop (today : String) (batch : List Paper)
    (m : PaperDict) (ht : today ≠ "") (hm : allSeen m) :
    allSeen (mergeLoop today m batch).merged := by
  induction batch generalizing m with
  | nil => simpa [mergeLoop] using hm
  | cons p rest ih =>
    cases halk : alookup m p.paper_id with
    | some old =>
      simp only [mergeLoop, halk]
      refine ih _ (allSeen_aset m p.paper_id _ hm ?_)
      have hts : pyTruthy (some today) = true := by simp [pyTruthy, ht]
      by_cases h : pyTruthy old.first_seen = true
      · simp [h]
      · simp [h, hts]
    | none =>
      simp only [mergeLoop, halk]
      exact ih _ (allSeen_aset m p.paper_id _ hm (by simp [pyTruthy, ht]))

theorem mergeLoop_fixed (today : String) (batch : List Paper) (m : PaperDict)
    (h : ∀ p ∈ batch, ∃ f, alookup m p.paper_id =
        some { p with first_seen := f } ∧ pyTruthy f = true) :
    mergeLoop today m batch = ⟨m, 0, batch.length⟩ := by
  induction batch generalizing m with
  | nil => rfl
  | cons p rest ih =>
    obtain ⟨f, hl, hf⟩ := h p (List.mem_cons_self p rest)
    have hp2 : ({ p with
        first_seen :=
          if pyTruthy ({ p with first_seen := f } : Paper).first_seen
          then ({ p with first_seen := f } : Paper).first_seen
          else some today } : Paper) = { p with first_seen := f } := by
      simp [hf]
    simp only [mergeLoop, hl, hp2]
    rw [aset_self m p.paper_id _ hl]
    rw [ih m (fun q hq => h q (List.mem_cons_of_mem p hq))]
    simp

/-- A paper used in concrete merge computations. -/
def pC3 : Paper :=
  { paper_id := "x", title := "T", abstract := none, year := none,
    venue := none, authors := [], citation_count := 0, url := "",
    pdf_url := none, publication_date := none, keywords_matched := [],
    first_seen := none }

/-- C3 counterexample: merging the one-paper batch `[pC3]` into the empty
store and then re-merging the identical batch yields `updated = 1`, not
`updated = 0` as claimed — `merge_papers` counts every incoming record whose
id already exists as updated even when nothing changes. -/
theorem C3_counterexample :
    (merge_papers (merge_papers [] [pC3] "d").merged [pC3] "d").added = 0 ∧
    (merge_papers (merge_papers [] [pC3] "d").merged [pC3] "d").updated = 1 := by
  decide

/-- C3 (amended): re-merging an identical batch (with distinct ids, on any
non-empty date string) yields `added = 0` and leaves every field of every
stored record unchanged, but reports `updated` equal to the batch length
rather than zero. -/
theorem C3_remerge (existing : PaperDict) (batch : List Paper)
    (today today2 : String) (ht : today ≠ "")
    (hnd : (paperIds batch).Nodup) :
    (merge_papers (merge_papers existing batch today).merged batch
        today2).added = 0 ∧
    (merge_papers (merge_papers existing batch today).merged batch
        today2).updated = batch.length ∧
    (merge_papers (merge_papers existing batch today).merged batch
        today2).merged = (merge_papers existing batch today).merged := by
  have hseen : allSeen (merge_papers existing batch today).merged :=
    allSeen_mergeLoop today batch _ ht (allSeen_backfill today existing ht)
  have hfix : ∀ p ∈ batch, ∃ f,
      alookup (merge_papers existing batch today).merged p.paper_id =
        some { p with first_seen := f } ∧ pyTruthy f = true := by
    intro p hp
    cases halk : alookup (backfillFirstSeen today existing) p.paper_id with
    | some old =>
      refine ⟨if pyTruthy old.first_seen then old.first_seen else some today,
        mergeLoop_mem_update today batch _ p old hnd hp halk, ?_⟩
      have hts : pyTruthy (some today) = true := by simp [pyTruthy, ht]
      by_cases h : pyTruthy old.first_seen = true
      · simp [h]
      · simp [h, hts]
    | none =>
      exact ⟨some today, mergeLoop_mem_add today batch _ p hnd hp halk,
        by simp [pyTruthy, ht]⟩
  have hb : backfillFirstSeen today2 (merge_papers existing batch today).merged =
      (merge_papers existing batch today).merged :=
    backfill_of_allSeen today2 _ hseen
  have hrun : merge_papers (merge_papers existing batch today).merged batch
      today2 = ⟨(merge_papers existing batch today).merged, 0, batch.length⟩ := by
    rw [merge_papers, hb]
    exact mergeLoop_fixed today2 batch _ hfix
  rw [hrun]
  exact ⟨rfl, rfl, rfl⟩

/-- Witness for C3: the concrete re-merge of `[pC3]` into its own merge result
has `added = 0`, `updated = 1` (the batch length) and an unchanged store. -/
theorem C3_remerge_witness :
    (merge_papers (merge_papers [] [pC3] "d").merged [pC3] "d").added = 0 ∧
    (merge_papers (merge_papers [] [pC3] "d").merged [pC3] "d").updated =
      [pC3].length ∧
    (merge_papers (merge_papers [] [pC3] "d").merged [pC3] "d").merged =
      (merge_papers [] [pC3] "d").merged :=
  C3_remerge [] [pC3] "d" "d" (by decide) (by decide)

theorem alookup_backfill (today : String) (m : PaperDict) (id : String) :
    alookup (backfillFirstSeen today m) id =
      (alookup m id).map (fun r =>
        if pyTruthy r.first_seen then r
        else { r with first_seen := some today }) := by
  induction m with
  | nil => simp [backfillFirstSeen, alookup]
  | cons kv rest ih =>
    obtain ⟨k, r⟩ := kv
    by_cases hq : id = k
    · simp [backfillFirstSeen, alookup, hq]
    · simp only [backfillFirstSeen, List.map_cons, alookup, if_neg hq]
      exact ih

/-- C8: `merge_papers` never removes a record — every id present in the
existing store is present in the output; an incoming record whose id already
exists replaces the stored record's fields except `first_seen`, which keeps
the existing record's value (backfilled to the current date when the existing
record had none); a record with a new id is added with `first_seen` set to the
current date. (Incoming ids are assumed pairwise distinct, as produced by the
dedup pass.) -/
theorem C8_merge_frame (existing : PaperDict) (batch : List Paper)
    (today : String) (hnd : (paperIds batch).Nodup) :
    (∀ id, (alookup existing id).isSome →
      (alookup (merge_papers existing batch today).merged id).isSome) ∧
    (∀ p ∈ batch, ∀ old, alookup existing p.paper_id = some old →
      alookup (merge_papers existing batch today).merged p.paper_id =
        some { p with
               first_seen :=
                 if pyTruthy old.first_seen then old.first_seen
                 else some today }) ∧
    (∀ p ∈ batch, alookup existing p.paper_id = none →
      alookup (merge_papers existing batch today).merged p.paper_id =
        some { p with first_seen := some today }) := by
  refine ⟨?_, ?_, ?_⟩
  · intro id h
    refine mergeLoop_isSome today batch _ id ?_
    rw [alookup_backfill]
    simpa using h
  · intro p hp old hold
    have hb : alookup (backfillFirstSeen today existing) p.paper_id =
        some (if pyTruthy old.first_seen then old
              else { old with first_seen := some today }) := by
      rw [alookup_backfill, hold]
      rfl
    rw [merge_papers,
      mergeLoop_mem_update today batch _ p _ hnd hp hb]
    by_cases h : pyTruthy old.first_seen = true
    · simp [h]
    · simp only [Bool.not_eq_true] at h
      simp only [h, Bool.false_eq_true, if_false]
      congr 1
      congr 1
      by_cases h2 : pyTruthy (some today) = true
      · simp [h2]
      · simp [h2]
  · intro p hp hnone
    have hb : alookup (backfillFirstSeen today existing) p.paper_id = none := by
      rw [alookup_backfill, hnone]
      rfl
    rw [merge_papers, mergeLoop_mem_add today batch _ p hnd hp hb]

/-- Witness for C8: merging `[pC3]` into the empty store adds it with
`first_seen` set to the current date. -/
theorem C8_merge_frame_witness :
    alookup (merge_papers [] [pC3] "d").merged pC3.paper_id =
      some { pC3 with first_seen := some "d" } :=
  (C8_merge_frame [] [pC3] "d" (by decide)).2.2 pC3 (by decide) rfl

/-! ## Title normalization and deduplication (`fetch_papers.py`) -/

/-- ASCII whitespace as matched by Python's regex `\s` and `str.split()`. -/
def isSpaceChar (c : Char) : Bool :=
  c = ' ' || c = '\t' || c = '\n' || c = '\r' || c = '\x0b' || c = '\x0c'

/-- ASCII word characters as matched by Python's regex `\w`. -/
def isWordChar (c : Char) : Bool := c.isAlphanum || c = '_'

/-- Accumulator pass splitting a character list on whitespace runs. -/
def splitWordsAux : List Char → List Char → List (List Char)
  | [], acc => if acc.isEmpty then [] else [acc.reverse]
  | c :: rest, acc =>
    if isSpaceChar c then
      if acc.isEmpty then splitWordsAux rest []
      else acc.reverse :: splitWordsAux rest []
    else splitWordsAux rest (c :: acc)

/-- Python `str.split()` with no arguments: split on whitespace runs, dropping
empty pieces. -/
def pySplit (s : String) : List String :=
  (splitWordsAux s.data []).map (fun l => String.mk l)

/-- `normalize_title` of `fetch_papers.py`: lowercase, drop every character
matching `[^\w\s]`, collapse whitespace runs to single spaces, strip. -/
def normalize_title (s : String) : String :=
  let kept : List Char :=
    (s.data.map Char.toLower).filter (fun c => isWordChar c || isSpaceChar c)
  String.intercalate " " ((splitWordsAux kept []).map (fun l => String.mk l))

/-- Python `set(t.split())`: the distinct words of a title. -/
def wordSet (t : String) : List String := (pySplit t).dedup

/-- Intersection of the two word sets. -/
def interWords (t1 t2 : String) : List String :=
  (wordSet t1).filter (fun w => decide (w ∈ wordSet t2))

/-- Union of the two word sets. -/
def unionWords (t1 t2 : String) : List String :=
  wordSet t1 ++ (wordSet t2).filter (fun w => decide (w ∉ wordSet t1))

/-- `titles_are_similar` of `fetch_papers.py`. The float comparison
`jaccard >= 0.8` is modelled exactly as the rational bound
`4 * |union| <= 5 * |inter|`. -/
def titles_are_similar (t1 t2 : String) : Bool :=
  if t1 = t2 then true
  else if (t2.data.isPrefixOf t1.data || t1.data.isPrefixOf t2.data)
      && decide (20 ≤ min t1.length t2.length) then true
  else
    decide (4 ≤ (wordSet t1).length) && decide (4 ≤ (wordSet t2).length)
      && decide (4 * (unionWords t1 t2).length ≤ 5 * (interWords t1 t2).length)

/-- Grouping pass of `deduplicate_papers`, with explicit structural fuel:
each unprocessed paper seeds a group and absorbs every later unprocessed
paper whose normalized title is similar to the seed's. The unprocessed list
shrinks at every step, so fuel equal to the input length never runs out. -/
def dedupGroupsFuel : Nat → List Paper → List (Paper × List Paper)
  | 0, _ => []
  | _, [] => []
  | fuel + 1, p :: rest =>
    (p, rest.filter (fun q =>
        titles_are_similar (normalize_title p.title) (normalize_title q.title)))
      :: dedupGroupsFuel fuel (rest.filter (fun q =>
        !titles_are_similar (normalize_title p.title)
          (normalize_title q.title)))

/-- The similarity groups of a batch, seed first within each group. -/
def dedupGroups (papers : List Paper) : List (Paper × List Paper) :=
  dedupGroupsFuel papers.length papers

/-- The score electing a duplicate group's representative: has-venue, then
year, then citation count. -/
def score (p : Paper) : Int × Int × Int :=
  ((if pyTruthy p.venue then 1 else 0), p.year.getD 0, p.citation_count)

/-- Strict lexicographic comparison of score triples (Python tuple `<`). -/
def tripleLt : Int × Int × Int → Int × Int × Int → Bool
  | (a1, a2, a3), (b1, b2, b3) =>
    decide (a1 < b1) ||
      (decide (a1 = b1) &&
        (decide (a2 < b2) || (decide (a2 = b2) && decide (a3 < b3))))

/-- Python `max(group, key=score)` over `seed :: rest`: the first maximal
element. -/
def bestPaper (p : Paper) (rest : List Paper) : Paper :=
  rest.foldl (fun best q => if tripleLt (score best) (score q) then q else best) p

/-- `deduplicate_papers` of `fetch_papers.py`: one representative per group. -/
def deduplicate_papers (papers : List Paper) : List Paper :=
  (dedupGroups papers).map (fun g => bestPaper g.1 g.2)

/-- The paper titled "Knockoff Nets". -/
def kn1 : Paper :=
  { paper_id := "k1", title := "Knockoff Nets", abstract := none,
    year := some 2018, venue := none, authors := [], citation_count := 100,
    url := "", pdf_url := none, publication_date := none,
    keywords_matched := [], first_seen := none }

/-- The paper titled "Knockoff Nets: Stealing Functionality". -/
def kn2 : Paper :=
  { paper_id := "k2", title := "Knockoff Nets: Stealing Functionality",
    abstract := none, year := some 2019, venue := some "CVPR", authors := [],
    citation_count := 50, url := "", pdf_url := none,
    publication_date := none, keywords_matched := [], first_seen := none }

/-- C4 counterexample: deduplicating a batch containing "Knockoff Nets" and
"Knockoff Nets: Stealing Functionality" keeps both records — the pair is not
grouped, refuting the claim that deduplication keeps a single representative
of the two. -/
theorem C4_counterexample : deduplicate_papers [kn1, kn2] = [kn1, kn2] := by
  decide

/-- C4 (amended): the two titles are not judged similar — the shorter
normalized title "knockoff nets" has 13 < 20 characters, so the prefix rule
does not fire, and only 2 < 4 distinct words, so the Jaccard rule does not
fire — hence deduplication puts the two records in separate singleton groups
and keeps both. -/
theorem C4_knockoff_not_grouped :
    titles_are_similar (normalize_title kn1.title) (normalize_title kn2.title)
      = false ∧
    (normalize_title kn1.title).length = 13 ∧
    (wordSet (normalize_title kn1.title)).length = 2 ∧
    dedupGroups [kn1, kn2] = [(kn1, []), (kn2, [])] ∧
    deduplicate_papers [kn1, kn2] = [kn1, kn2] := by
  decide

theorem ratio_ge_iff (I U : ℕ) (hU : 0 < U) :
    ((4 : ℚ)/5 ≤ (I : ℚ)/(U : ℚ)) ↔ 4 * U ≤ 5 * I := by
  rw [div_le_div_iff₀ (by norm_num) (by exact_mod_cast hU)]
  constructor
  · intro h
    have h2 : (4 : ℚ) * U ≤ 5 * I := by linarith
    exact_mod_cast h2
  · intro h
    have h2 : (4 : ℚ) * U ≤ 5 * I := by exact_mod_cast h
    linarith

/-- C6: two (normalized) titles are judged similar exactly when they are
equal, or one is a prefix of the other and the shorter has at least 20
characters, or both word sets have at least 4 distinct words and their
Jaccard similarity |inter| / |union| is at least 4/5 = 0.80. -/
theorem C6_titles_similar_iff (t1 t2 : String) :
    titles_are_similar t1 t2 = true ↔
      (t1 = t2 ∨
        ((t2.data.isPrefixOf t1.data ∨ t1.data.isPrefixOf t2.data) ∧
          20 ≤ min t1.length t2.length) ∨
        (4 ≤ (wordSet t1).length ∧ 4 ≤ (wordSet t2).length ∧
          (4 : ℚ)/5 ≤ ((interWords t1 t2).length : ℚ) /
            ((unionWords t1 t2).length : ℚ))) := by
  have hUle : (wordSet t1).length ≤ (unionWords t1 t2).length := by
    simp only [unionWords, List.length_append]
    exact Nat.le_add_right _ _
  unfold titles_are_similar
  by_cases h1 : t1 = t2
  · simp [h1]
  · rw [if_neg h1]
    by_cases h2 : ((t2.data.isPrefixOf t1.data || t1.data.isPrefixOf t2.data)
        && decide (20 ≤ min t1.length t2.length)) = true
    · rw [if_pos h2]
      simp only [Bool.and_eq_true, Bool.or_eq_true, decide_eq_true_eq] at h2
      simp only [true_iff]
      exact Or.inr (Or.inl ⟨h2.1, h2.2⟩)
    · rw [if_neg h2]
      simp only [Bool.and_eq_true, decide_eq_true_eq]
      constructor
      · rintro ⟨⟨hw1, hw2⟩, hj⟩
        have hU : 0 < (unionWords t1 t2).length := by omega
        exact Or.inr (Or.inr ⟨hw1, hw2, (ratio_ge_iff _ _ hU).mpr hj⟩)
      · rintro (h | h | ⟨hw1, hw2, hj⟩)
        · exact absurd h h1
        · exfalso
          apply h2
          simp only [Bool.and_eq_true, Bool.or_eq_true, decide_eq_true_eq]
          exact ⟨h.1, h.2⟩
        · have hU : 0 < (unionWords t1 t2).length := by omega
          exact ⟨⟨hw1, hw2⟩, (ratio_ge_iff _ _ hU).mp hj⟩

/-! ## Graph expansion (`scripts/pipeline/expand.py`) -/

/-- A citing/cited paper stub returned by the citations/references API, after
the author-name extraction done at the call site. -/
structure S2Stub : Type where
  paperId : Option String
  title : Option String
  abstract : Option String
  year : Option Int
  venue : Option String
  authors : List String
  url : Option String
deriving DecidableEq

/-- The id under which a stub is registered; present only when the stub's
`paperId` is Python-truthy (`if not citing.get("paperId"): continue`). -/
def idOf (s : S2Stub) : Option String :=
  match s.paperId with
  | none => none
  | some i => if i = "" then none else some i

/-- The truthy ids of a stub list, in order. -/
def stubIds (l : List S2Stub) : List String := l.filterMap idOf

/-- Registration of one discovered stub — the `state.add_paper` call in
`expand.py` — with `kind` either `"citation"` or `"reference"`. -/
def addStub (kind pid : String) (depth : Nat) (now : String)
    (st : Store) (s : S2Stub) : Store :=
  match idOf s with
  | none => st
  | some cid =>
    (add_paper st cid (s.title.getD "Unknown") kind (some pid) s.abstract
      s.year s.venue s.authors s.url (depth + 1) now).1

/-- One successful expansion of a classified paper: register the citing
papers, then the referenced papers, then mark the paper `expanded`. -/
def expandStep (st : Store) (pid : String) (depth : Nat)
    (citations references : List S2Stub) (now : String) : Store :=
  set_expanded
    (references.foldl (addStub "reference" pid depth now)
      (citations.foldl (addStub "citation" pid depth now) st))
    pid now

theorem addStub_noId (kind pid : String) (depth : Nat) (now : String)
    (st : Store) (s : S2Stub) (h : idOf s = none) :
    addStub kind pid depth now st s = st := by
  simp [addStub, h]

theorem addStub_present (kind pid : String) (depth : Nat) (now : String)
    (st : Store) (s : S2Stub) (cid : String) (hid : idOf s = some cid)
    (hp : (alookup st cid).isSome) :
    addStub kind pid depth now st s = st := by
  simp [addStub, hid, add_paper, hp]

theorem addStub_absent (kind pid : String) (depth : Nat) (now : String)
    (st : Store) (s : S2Stub) (cid : String) (hid : idOf s = some cid)
    (hp : alookup st cid = none) :
    addStub kind pid depth now st s =
      st ++ [(cid, mkPaperRecord cid (s.title.getD "Unknown") kind (some pid)
        s.abstract s.year s.venue s.authors s.url (depth + 1) now)] := by
  simp [addStub, hid, add_paper, hp]

theorem alookup_addStub_ne (kind pid : String) (depth : Nat) (now : String)
    (st : Store) (s : S2Stub) (q : String) (h : idOf s ≠ some q) :
    alookup (addStub kind pid depth now st s) q = alookup st q := by
  cases hid : idOf s with
  | none => rw [addStub_noId kind pid depth now st s hid]
  | some cid =>
    have hq : q ≠ cid := fun he => h (by rw [hid, he])
    cases hp : alookup st cid with
    | some v =>
      rw [addStub_present kind pid depth now st s cid hid (by simp [hp])]
    | none =>
      rw [addStub_absent kind pid depth now st s cid hid hp]
      exact alookup_append_ne st cid _ q hq

theorem foldStubs_untouched (kind pid : String) (depth : Nat) (now : String)
    (stubs : List S2Stub) (st : Store) (q : String)
    (h : q ∉ stubIds stubs) :
    alookup (stubs.foldl (addStub kind pid depth now) st) q = alookup st q := by
  induction stubs generalizing st with
  | nil => rfl
  | cons s rest ih =>
    have hs : idOf s ≠ some q := by
      intro he
      exact h (by simp [stubIds, List.filterMap_cons, he])
    have hrest : q ∉ stubIds rest := by
      intro he
      apply h
      simp only [stubIds, List.filterMap_cons]
      cases idOf s <;> simp [stubIds] at he ⊢ <;> simp [he]
    simp only [List.foldl_cons]
    rw [ih _ hrest, alookup_addStub_ne kind pid depth now st s q hs]

theorem foldStubs_keeps (kind pid : String) (depth : Nat) (now : String)
    (stubs : List S2Stub) (st : Store) (q : String)
    (h : (alookup st q).isSome) :
    alookup (stubs.foldl (addStub kind pid depth now) st) q = alookup st q := by
  induction stubs generalizing st with
  | nil => rfl
  | cons s rest ih =>
    have step : alookup (addStub kind pid depth now st s) q = alookup st q := by
      cases hid : idOf s with
      | none => rw [addStub_noId kind pid depth now st s hid]
      | some cid =>
        by_cases hq : q = cid
        · subst hq
          cases hp : alookup st q with
          | some v =>
            rw [addStub_present kind pid depth now st s q hid (by simp [hp])]
            exact hp
          | none =>
            rw [hp] at h
            simp at h
        · refine alookup_addStub_ne kind pid depth now st s q ?_
          rw [hid]
          intro he
          injection he with h2
          exact hq h2.symm
    simp only [List.foldl_cons]
    rw [ih (addStub kind pid depth now st s) (by rw [step]; exact h), step]

theorem foldStubs_mem (kind pid : String) (depth : Nat) (now : String)
    (stubs : List S2Stub) (st : Store) (s : S2Stub) (cid : String)
    (hnd : (stubIds stubs).Nodup) (hs : s ∈ stubs) (hid : idOf s = some cid)
    (hnone : alookup st cid = none) :
    alookup (stubs.foldl (addStub kind pid depth now) st) cid =
      some (mkPaperRecord cid (s.title.getD "Unknown") kind (some pid)
        s.abstract s.year s.venue s.authors s.url (depth + 1) now) := by
  induction stubs generalizing st with
  | nil => cases hs
  | cons s0 rest ih =>
    rcases List.mem_cons.mp hs with he | he
    · subst he
      have hids : stubIds (s :: rest) = cid :: stubIds rest := by
        simp [stubIds, List.filterMap_cons, hid]
      rw [hids] at hnd
      have hnotin : cid ∉ stubIds rest := (List.nodup_cons.mp hnd).1
      simp only [List.foldl_cons]
      rw [foldStubs_untouched kind pid depth now rest _ cid hnotin,
        addStub_absent kind pid depth now st s cid hid hnone]
      exact alookup_append_self st cid _ hnone
    · have hcid_rest : cid ∈ stubIds rest := by
        simp only [stubIds, List.mem_filterMap]
        exact ⟨s, he, hid⟩
      have hstep : alookup (addStub kind pid depth now st s0) cid = none := by
        cases hid0 : idOf s0 with
        | none =>
          rw [addStub_noId kind pid depth now st s0 hid0]
          exact hnone
        | some j =>
          have hj : j ≠ cid := by
            intro hj
            have hids : stubIds (s0 :: rest) = j :: stubIds rest := by
              simp [stubIds, List.filterMap_cons, hid0]
            rw [hids] at hnd
            exact (List.nodup_cons.mp hnd).1 (hj ▸ hcid_rest)
          cases hp : alookup st j with
          | some v =>
            rw [addStub_present kind pid depth now st s0 j hid0 (by simp [hp])]
            exact hnone
          | none =>
            rw [addStub_absent kind pid depth now st s0 j hid0 hp,
              alookup_append_ne st j _ cid (fun he2 => hj he2.symm)]
            exact hnone
      have hnd2 : (stubIds rest).Nodup := by
        cases hid0 : idOf s0 with
        | none =>
          have hids : stubIds (s0 :: rest) = stubIds rest := by
            simp [stubIds, List.filterMap_cons, hid0]
          rwa [hids] at hnd
        | some j =>
          have hids : stubIds (s0 :: rest) = j :: stubIds rest := by
            simp [stubIds, List.filterMap_cons, hid0]
          rw [hids] at hnd
          exact (List.nodup_cons.mp hnd).2
      simp only [List.foldl_cons]
      exact ih _ hnd2 he hstep

theorem foldStubs_cases (kind pid : String) (depth : Nat) (now : String)
    (stubs : List S2Stub) (st : Store) (q : String) (r : PaperRecord)
    (h : alookup (stubs.foldl (addStub kind pid depth now) st) q = some r) :
    alookup st q = some r ∨ r.depth = depth + 1 := by
  induction stubs generalizing st with
  | nil => exact Or.inl h
  | cons s rest ih =>
    simp only [List.foldl_cons] at h
    rcases ih _ h with h2 | h2
    · cases hid : idOf s with
      | none =>
        rw [addStub_noId kind pid depth now st s hid] at h2
        exact Or.inl h2
      | some cid =>
        cases hp : alookup st cid with
        | some v =>
          rw [addStub_present kind pid depth now st s cid hid (by simp [hp])]
            at h2
          exact Or.inl h2
        | none =>
          rw [addStub_absent kind pid depth now st s cid hid hp] at h2
          rcases alookup_append_cases st cid _ q r h2 with h3 | h3
          · exact Or.inl h3
          · exact Or.inr (by rw [h3.2]; rfl)
    · exact Or.inr h2

/-- C5 (amended): during expansion of a classified record at depth `d`, every
discovered citing or referenced stub that has a truthy `paperId` and is not
already in the store is added as a new record at depth `d + 1` with source
`"citation"` (citing) or `"reference"` (referenced) and `source_paper_id`
equal to the expanding record's id, with status `fetched` when the stub
carries a (non-empty) abstract and `pending` otherwise — also in mixed
batches whose other stubs re-discover papers already present; after both
batches are processed, the expanding record's status is set to `expanded`.
(The original claim's "always `pending`" fails — see the counterexample.) -/
theorem C5_expand (st : Store) (pid : String) (r0 : PaperRecord) (depth : Nat)
    (citations references : List S2Stub) (now : String)
    (hpid : alookup st pid = some r0)
    (hnd : (stubIds citations ++ stubIds references).Nodup) :
    (∀ s ∈ citations, ∀ cid, idOf s = some cid → alookup st cid = none →
      ∃ r, alookup (expandStep st pid depth citations references now) cid =
          some r ∧
        r.status =
          (if pyTruthy s.abstract then Status.fetched else Status.pending) ∧
        r.depth = depth + 1 ∧ r.source = "citation" ∧
        r.source_paper_id = some pid) ∧
    (∀ s ∈ references, ∀ cid, idOf s = some cid → alookup st cid = none →
      ∃ r, alookup (expandStep st pid depth citations references now) cid =
          some r ∧
        r.status =
          (if pyTruthy s.abstract then Status.fetched else Status.pending) ∧
        r.depth = depth + 1 ∧ r.source = "reference" ∧
        r.source_paper_id = some pid) ∧
    statusOf (expandStep st pid depth citations references now) pid =
      some Status.expanded := by
  have hndc : (stubIds citations).Nodup := (List.nodup_append.mp hnd).1
  have hndr : (stubIds references).Nodup := (List.nodup_append.mp hnd).2.1
  have hdisj : (stubIds citations).Disjoint (stubIds references) :=
    (List.nodup_append.mp hnd).2.2
  refine ⟨?_, ?_, ?_⟩
  · intro s hs cid hid hnone
    have hcid : cid ∈ stubIds citations := by
      simp only [stubIds, List.mem_filterMap]
      exact ⟨s, hs, hid⟩
    have hne_pid : cid ≠ pid := by
      intro he
      rw [he, hpid] at hnone
      cases hnone
    have h1 : alookup (citations.foldl (addStub "citation" pid depth now) st)
        cid = some (mkPaperRecord cid (s.title.getD "Unknown") "citation"
          (some pid) s.abstract s.year s.venue s.authors s.url (depth + 1)
          now) :=
      foldStubs_mem "citation" pid depth now citations st s cid hndc hs hid
        hnone
    have h2 : alookup (references.foldl (addStub "reference" pid depth now)
        (citations.foldl (addStub "citation" pid depth now) st)) cid =
        some (mkPaperRecord cid (s.title.getD "Unknown") "citation"
          (some pid) s.abstract s.year s.venue s.authors s.url (depth + 1)
          now) := by
      rw [foldStubs_untouched "reference" pid depth now references _ cid
        (fun hmem => hdisj hcid hmem)]
      exact h1
    refine ⟨mkPaperRecord cid (s.title.getD "Unknown") "citation" (some pid)
      s.abstract s.year s.venue s.authors s.url (depth + 1) now,
      ?_, rfl, rfl, rfl, rfl⟩
    simp only [expandStep, set_expanded, alookup_aupdate, if_neg hne_pid]
    exact h2
  · intro s hs cid hid hnone
    have hcid : cid ∈ stubIds references := by
      simp only [stubIds, List.mem_filterMap]
      exact ⟨s, hs, hid⟩
    have hne_pid : cid ≠ pid := by
      intro he
      rw [he, hpid] at hnone
      cases hnone
    have h0 : alookup (citations.foldl (addStub "citation" pid depth now) st)
        cid = none := by
      rw [foldStubs_untouched "citation" pid depth now citations st cid
        (fun hmem => hdisj hmem hcid)]
      exact hnone
    have h1 : alookup (references.foldl (addStub "reference" pid depth now)
        (citations.foldl (addStub "citation" pid depth now) st)) cid =
        some (mkPaperRecord cid (s.title.getD "Unknown") "reference"
          (some pid) s.abstract s.year s.venue s.authors s.url (depth + 1)
          now) :=
      foldStubs_mem "reference" pid depth now references _ s cid hndr hs hid h0
    refine ⟨mkPaperRecord cid (s.title.getD "Unknown") "reference" (some pid)
      s.abstract s.year s.venue s.authors s.url (depth + 1) now,
      ?_, rfl, rfl, rfl, rfl⟩
    simp only [expandStep, set_expanded, alookup_aupdate, if_neg hne_pid]
    exact h1
  · have h1 : alookup (citations.foldl (addStub "citation" pid depth now) st)
        pid = some r0 := by
      rw [foldStubs_keeps "citation" pid depth now citations st pid
        (by simp [hpid])]
      exact hpid
    have h2 : alookup (references.foldl (addStub "reference" pid depth now)
        (citations.foldl (addStub "citation" pid depth now) st)) pid =
        some r0 := by
      rw [foldStubs_keeps "reference" pid depth now references _ pid
        (by simp [h1])]
      exact h1
    simp [expandStep, set_expanded, statusOf, alookup_aupdate, h2]

/-- The classified seed record used in concrete expansion computations. -/
def c5Rec : PaperRecord :=
  { paper_id := "s", title := "Seed", abstract := some "sa", year := some 2016,
    venue := none, authors := [], url := none, source := "seed",
    source_paper_id := none, depth := 0, status := Status.classified,
    classification := some "ML05", classification_confidence := some "HIGH",
    added_at := some "t0", fetched_at := some "t0", classified_at := some "t0",
    expanded_at := none, citations_checked_at := none, s2_paper_id := none }

/-- A store holding only the classified record `c5Rec`. -/
def c5Store : Store := [("s", c5Rec)]

/-- A citing stub that carries an abstract. -/
def c5Stub : S2Stub :=
  { paperId := some "c", title := some "T", abstract := some "abs",
    year := none, venue := none, authors := [], url := none }

/-- C5 counterexample: a citing paper discovered with an abstract is stored
with status `fetched`, not `pending` as the claim states. -/
theorem C5_counterexample :
    statusOf (expandStep c5Store "s" 0 [c5Stub] [] "t") "c" =
      some Status.fetched ∧
    Status.fetched ≠ Status.pending := by
  decide

/-- A citing stub that re-discovers the seed paper already in the store. -/
def c5StubKnown : S2Stub :=
  { paperId := some "s", title := some "Seed", abstract := some "sa",
    year := none, venue := none, authors := [], url := none }

/-- Witness for C5: expanding `c5Rec` over a mixed batch — one stub
re-discovering the seed already in the store, one fresh stub — the fresh
stub is stored and the seed record ends with status `expanded`. -/
theorem C5_expand_witness :
    statusOf (expandStep c5Store "s" 0 [c5StubKnown, c5Stub] [] "t") "s" =
      some Status.expanded :=
  (C5_expand c5Store "s" c5Rec 0 [c5StubKnown, c5Stub] [] "t" (by decide)
    (by decide)).2.2

/-- `state.get_papers_to_expand()`: the records with status `classified`. -/
def get_papers_to_expand (st : Store) : List PaperRecord :=
  (st.map (fun kv => kv.2)).filter (fun r => decide (r.status = Status.classified))

/-- The records selected for expansion by `expand.py`: classified records with
depth strictly below `max_depth`, truncated to `limit` when positive. -/
def expandSelection (st : Store) (maxDepth limit : Nat) : List PaperRecord :=
  let sel := (get_papers_to_expand st).filter (fun r => decide (r.depth < maxDepth))
  if 0 < limit then sel.take limit else sel

/-- The id used for the remote fetch:
`s2_id = paper.get("s2_paper_id") or paper_id`. -/
def s2IdOf (r : PaperRecord) : String :=
  if pyTruthy r.s2_paper_id then r.s2_paper_id.getD "" else r.paper_id

/-- Processing of one selected record in the expansion loop: skipped when its
fetch id is a local seed id, else expanded with the batches the remote service
returns for that id. -/
def expandStepGuard (batches : String → List S2Stub × List S2Stub)
    (now : String) (acc : Store) (p : PaperRecord) : Store :=
  if "seed_".data.isPrefixOf (s2IdOf p).data then acc
  else expandStep acc p.paper_id p.depth (batches (s2IdOf p)).1
    (batches (s2IdOf p)).2 now

/-- One full (successful) run of the expansion stage over a snapshot of the
selection, as `expand.py` performs it. -/
def expandRun (st : Store) (maxDepth limit : Nat)
    (batches : String → List S2Stub × List S2Stub) (now : String) : Store :=
  (expandSelection st maxDepth limit).foldl (expandStepGuard batches now) st

theorem expandStep_from (st2 : Store) (pid : String) (d : Nat)
    (cits refs : List S2Stub) (now : String) (q : String) (r : PaperRecord)
    (h : alookup (expandStep st2 pid d cits refs now) q = some r) :
    (∃ r0, alookup st2 q = some r0 ∧ r.depth = r0.depth) ∨ r.depth = d + 1 := by
  simp only [expandStep, set_expanded, alookup_aupdate] at h
  have h2 : ∃ r1, alookup (refs.foldl (addStub "reference" pid d now)
      (cits.foldl (addStub "citation" pid d now) st2)) q = some r1 ∧
      r.depth = r1.depth := by
    by_cases hq : q = pid
    · rw [if_pos hq] at h
      cases halk : alookup (refs.foldl (addStub "reference" pid d now)
          (cits.foldl (addStub "citation" pid d now) st2)) q with
      | none =>
        rw [halk] at h
        cases h
      | some r1 =>
        rw [halk, Option.map_some'] at h
        injection h with h3
        exact ⟨r1, rfl, by rw [← h3]⟩
    · rw [if_neg hq] at h
      exact ⟨r, h, rfl⟩
  obtain ⟨r1, h1, hdep⟩ := h2
  rcases foldStubs_cases "reference" pid d now refs _ q r1 h1 with h3 | h3
  · rcases foldStubs_cases "citation" pid d now cits _ q r1 h3 with h4 | h4
    · exact Or.inl ⟨r1, h4, hdep⟩
    · exact Or.inr (hdep ▸ h4)
  · exact Or.inr (hdep ▸ h3)

theorem expandFold_depth (sel : List PaperRecord) (maxDepth : Nat)
    (batches : String → List S2Stub × List S2Stub) (now : String)
    (st acc : Store)
    (hsel : ∀ p ∈ sel, p.depth < maxDepth)
    (hinv : ∀ q r, alookup st q = none → alookup acc q = some r →
      r.depth ≤ maxDepth) :
    ∀ q r, alookup st q = none →
      alookup (sel.foldl (expandStepGuard batches now) acc) q = some r →
      r.depth ≤ maxDepth := by
  induction sel generalizing acc with
  | nil => exact hinv
  | cons p rest ih =>
    simp only [List.foldl_cons]
    refine ih _ (fun x hx => hsel x (List.mem_cons_of_mem p hx)) ?_
    intro q r hq hr
    by_cases hseed : "seed_".data.isPrefixOf (s2IdOf p).data
    · rw [expandStepGuard, if_pos hseed] at hr
      exact hinv q r hq hr
    · rw [expandStepGuard, if_neg hseed] at hr
      rcases expandStep_from acc p.paper_id p.depth _ _ now q r hr with
        ⟨r0, h0, hdep⟩ | hdep
      · exact hdep ▸ hinv q r0 hq h0
      · have hp : p.depth < maxDepth := hsel p (List.mem_cons_self p rest)
        omega

/-- C7: only records with depth strictly below `max_depth` are selected for
expansion, and every record created during a run (any id absent from the
initial store) has depth at most `max_depth` — in particular, with
`max_depth = 2` no created record exceeds depth 2, for any citing/referenced
batches. -/
theorem C7_depth_bound (st : Store) (maxDepth limit : Nat)
    (batches : String → List S2Stub × List S2Stub) (now : String) :
    (∀ p ∈ expandSelection st maxDepth limit, p.depth < maxDepth) ∧
    (∀ q r, alookup st q = none →
      alookup (expandRun st maxDepth limit batches now) q = some r →
      r.depth ≤ maxDepth) := by
  have hsel : ∀ p ∈ expandSelection st maxDepth limit, p.depth < maxDepth := by
    intro p hp
    have hp2 : p ∈ (get_papers_to_expand st).filter
        (fun r => decide (r.depth < maxDepth)) := by
      by_cases hl : 0 < limit
      · rw [expandSelection, if_pos hl] at hp
        exact List.take_subset _ _ hp
      · rwa [expandSelection, if_neg hl] at hp
    have := List.of_mem_filter hp2
    simpa using this
  refine ⟨hsel, ?_⟩
  exact expandFold_depth _ maxDepth batches now st st hsel
    (fun q r hq hr => by rw [hq] at hr; cases hr)

/-- The store for the concrete C7 run: one classified seed at depth 0. -/
def c7Store : Store := [("s", c5Rec)]

/-- The batches for the concrete C7 run: the seed has one citing stub. -/
def c7Batches (id : String) : List S2Stub × List S2Stub :=
  if id = "s" then ([c5Stub], []) else ([], [])

/-- The record that the concrete C7 run creates for the citing stub. -/
def c7NewRec : PaperRecord :=
  mkPaperRecord "c" "T" "citation" (some "s") (some "abs") none none [] none
    1 "t"

/-- Witness for C7: the record created at depth 1 in the concrete run obeys
the bound `depth ≤ 2`. -/
theorem C7_depth_bound_witness : c7NewRec.depth ≤ 2 :=
  (C7_depth_bound c7Store 2 0 c7Batches "t").2 "c" c7NewRec (by decide)
    (by decide)

/-! ## Category validation (`scripts/pipeline/classify.py`) -/

/-- The closed list of category codes accepted by `validate_category`. -/
def validCategories : List String :=
  ["ML01", "ML02", "ML03", "ML04", "ML05", "ML06", "ML07", "ML08", "ML09",
   "ML10", "NONE"]

/-- Python `str.strip()`: drop leading and trailing whitespace. -/
def pyStrip (s : String) : String :=
  String.mk (((s.data.dropWhile (fun c => isSpaceChar c)).reverse.dropWhile
    (fun c => isSpaceChar c)).reverse)

/-- Python `str.upper()` on ASCII text. -/
def pyUpper (s : String) : String := String.mk (s.data.map Char.toUpper)

/-- Contiguous-subsequence test over character lists. -/
def containsSeq (needle : List Char) : List Char → Bool
  | [] => needle.isPrefixOf []
  | c :: rest => needle.isPrefixOf (c :: rest) || containsSeq needle rest

/-- Python substring membership `needle in hay`. -/
def containsSub (hay needle : String) : Bool := containsSeq needle.data hay.data

/-- `validate_category` of `classify.py`: trim and upper-case the response; if
it is a valid code return it, else return the first valid code occurring as a
substring of it, else `"NONE"`. -/
def validate_category (category : String) : String :=
  let c := pyUpper (pyStrip category)
  if c ∈ validCategories then c
  else
    match validCategories.find? (fun v => containsSub c v) with
    | some v => v
    | none => "NONE"

/-- C9: `validate_category` always lands in the closed set of eleven codes:
it returns the trimmed upper-cased response when that is a valid code,
otherwise the first valid code occurring as a substring of it, otherwise
`"NONE"`; and when it returns `"NONE"`, `set_classified` with that category
marks the paper `discarded`, so no malformed classifier response ever stores
a category outside the closed set. -/
theorem C9_validate_category (s : String) (st : Store) (pid conf now : String) :
    validate_category s ∈ validCategories ∧
    (pyUpper (pyStrip s) ∈ validCategories →
      validate_category s = pyUpper (pyStrip s)) ∧
    (pyUpper (pyStrip s) ∉ validCategories →
      validate_category s =
        ((validCategories.find?
          (fun v => containsSub (pyUpper (pyStrip s)) v)).getD "NONE")) ∧
    (validate_category s = "NONE" →
      statusOf (set_classified st pid (validate_category s) conf now) pid =
        (statusOf st pid).map (fun _ => Status.discarded)) := by
  refine ⟨?_, ?_, ?_, ?_⟩
  · rw [validate_category]
    by_cases h : pyUpper (pyStrip s) ∈ validCategories
    · rwa [if_pos h]
    · rw [if_neg h]
      cases hf : validCategories.find? (fun v => containsSub (pyUpper (pyStrip s)) v) with
      | some v => exact List.mem_of_find?_eq_some hf
      | none => decide
  · intro h
    rw [validate_category, if_pos h]
  · intro h
    rw [validate_category, if_neg h]
    cases hf : validCategories.find? (fun v => containsSub (pyUpper (pyStrip s)) v) with
    | some v => rfl
    | none => rfl
  · intro h
    rw [h]
    simp only [set_classified, statusOf, alookup_aupdate, if_pos rfl]
    cases alookup st pid with
    | none => rfl
    | some r => simp

/-- Witness for C9: a well-formed response is normalized to its code, a noisy
response is reduced to the embedded code, and garbage falls back to `NONE`. -/
theorem C9_validate_category_witness :
    validate_category " ml05 " = "ML05" ∧
    validate_category "I think ML03" ∈ validCategories := by
  constructor
  · have h := (C9_validate_category " ml05 " [] "p" "HIGH" "t").2.1 (by decide)
    rw [h]
    decide
  · exact (C9_validate_category "I think ML03" [] "p" "HIGH" "t").1

/-! ## Discovery sweep (`scripts/pipeline/discover.py`) -/

/-- The recency gate of the discovery sweep:
`if year and year >= current_year - 1` (Python-truthy, so year 0 fails). -/
def recentEnough (currentYear : Int) (year : Option Int) : Bool :=
  match year with
  | none => false
  | some y => decide (y ≠ 0) && decide (currentYear - 1 ≤ y)

/-- Processing of one citing stub in the discovery sweep: added as a
`"citation"` record at `depth + 1` only when previously unseen and recent. -/
def discoverAdd (pid : String) (depth : Nat) (currentYear : Int) (now : String)
    (st : Store) (s : S2Stub) : Store :=
  match idOf s with
  | none => st
  | some cid =>
    if (alookup st cid).isSome then st
    else if recentEnough currentYear s.year then
      (add_paper st cid (s.title.getD "Unknown") "citation" (some pid)
        s.abstract s.year s.venue s.authors s.url (depth + 1) now).1
    else st

/-- One discovery step for a checked paper: process its citing stubs, then
stamp `citations_checked_at`. -/
def discoverStep (st : Store) (pid : String) (depth : Nat) (currentYear : Int)
    (citations : List S2Stub) (now : String) : Store :=
  set_citations_checked
    (citations.foldl (discoverAdd pid depth currentYear now) st) pid now

theorem discoverAdd_skip (pid : String) (depth : Nat) (currentYear : Int)
    (now : String) (st : Store) (s : S2Stub) (cid : String)
    (hid : idOf s = some cid) (hnone : alookup st cid = none)
    (hrec : recentEnough currentYear s.year = false) :
    discoverAdd pid depth currentYear now st s = st := by
  simp [discoverAdd, hid, hnone, hrec]

theorem discoverAdd_present (pid : String) (depth : Nat) (currentYear : Int)
    (now : String) (st : Store) (s : S2Stub) (cid : String)
    (hid : idOf s = some cid) (hp : (alookup st cid).isSome) :
    discoverAdd pid depth currentYear now st s = st := by
  simp [discoverAdd, hid, hp]

theorem discoverAdd_new (pid : String) (depth : Nat) (currentYear : Int)
    (now : String) (st : Store) (s : S2Stub) (cid : String)
    (hid : idOf s = some cid) (hnone : alookup st cid = none)
    (hrec : recentEnough currentYear s.year = true) :
    discoverAdd pid depth currentYear now st s =
      st ++ [(cid, mkPaperRecord cid (s.title.getD "Unknown") "citation"
        (some pid) s.abstract s.year s.venue s.authors s.url (depth + 1)
        now)] := by
  simp [discoverAdd, hid, hnone, hrec, add_paper]

theorem discoverAdd_other (pid : String) (depth : Nat) (currentYear : Int)
    (now : String) (st : Store) (s : S2Stub) (q : String)
    (h : idOf s ≠ some q) :
    alookup (discoverAdd pid depth currentYear now st s) q = alookup st q := by
  cases hid : idOf s with
  | none => simp [discoverAdd, hid]
  | some cid =>
    have hq : q ≠ cid := fun he => h (by rw [hid, he])
    cases hp : alookup st cid with
    | some v => rw [discoverAdd_present pid depth currentYear now st s cid hid (by simp [hp])]
    | none =>
      cases hrec : recentEnough currentYear s.year with
      | false => rw [discoverAdd_skip pid depth currentYear now st s cid hid hp hrec]
      | true =>
        rw [discoverAdd_new pid depth currentYear now st s cid hid hp hrec]
        exact alookup_append_ne st cid _ q hq

theorem foldDiscover_untouched (pid : String) (depth : Nat) (currentYear : Int)
    (now : String) (stubs : List S2Stub) (st : Store) (q : String)
    (h : q ∉ stubIds stubs) :
    alookup (stubs.foldl (discoverAdd pid depth currentYear now) st) q =
      alookup st q := by
  induction stubs generalizing st with
  | nil => rfl
  | cons s rest ih =>
    have hs : idOf s ≠ some q := by
      intro he
      exact h (by simp [stubIds, List.filterMap_cons, he])
    have hrest : q ∉ stubIds rest := by
      intro he
      apply h
      simp only [stubIds, List.filterMap_cons]
      cases idOf s <;> simp [stubIds] at he ⊢ <;> simp [he]
    simp only [List.foldl_cons]
    rw [ih _ hrest, discoverAdd_other pid depth currentYear now st s q hs]

theorem foldDiscover_keeps (pid : String) (depth : Nat) (currentYear : Int)
    (now : String) (stubs : List S2Stub) (st : Store) (q : String)
    (h : (alookup st q).isSome) :
    alookup (stubs.foldl (discoverAdd pid depth currentYear now) st) q =
      alookup st q := by
  induction stubs generalizing st with
  | nil => rfl
  | cons s rest ih =>
    have step : alookup (discoverAdd pid depth currentYear now st s) q =
        alookup st q := by
      cases hid : idOf s with
      | none => simp [discoverAdd, hid]
      | some cid =>
        by_cases hq : q = cid
        · subst hq
          cases hp : alookup st q with
          | some v =>
            rw [discoverAdd_present pid depth currentYear now st s q hid (by simp [hp])]
            exact hp
          | none =>
            rw [hp] at h
            simp at h
        · refine discoverAdd_other pid depth currentYear now st s q ?_
          rw [hid]
          intro he
          injection he with h2
          exact hq h2.symm
    simp only [List.foldl_cons]
    rw [ih (discoverAdd pid depth currentYear now st s) (by rw [step]; exact h),
      step]

theorem foldDiscover_step_none (pid : String) (depth : Nat)
    (currentYear : Int) (now : String) (st : Store) (s0 : S2Stub)
    (cid : String) (hnone : alookup st cid = none)
    (hne : idOf s0 ≠ some cid) :
    alookup (discoverAdd pid depth currentYear now st s0) cid = none := by
  rw [discoverAdd_other pid depth currentYear now st s0 cid hne]
  exact hnone

theorem foldDiscover_memSkip (pid : String) (depth : Nat) (currentYear : Int)
    (now : String) (stubs : List S2Stub) (st : Store) (s : S2Stub)
    (cid : String) (hnd : (stubIds stubs).Nodup) (hs : s ∈ stubs)
    (hid : idOf s = some cid) (hnone : alookup st cid = none)
    (hrec : recentEnough currentYear s.year = false) :
    alookup (stubs.foldl (discoverAdd pid depth currentYear now) st) cid =
      none := by
  induction stubs generalizing st with
  | nil => cases hs
  | cons s0 rest ih =>
    rcases List.mem_cons.mp hs with he | he
    · subst he
      have hids : stubIds (s :: rest) = cid :: stubIds rest := by
        simp [stubIds, List.filterMap_cons, hid]
      rw [hids] at hnd
      have hnotin : cid ∉ stubIds rest := (List.nodup_cons.mp hnd).1
      simp only [List.foldl_cons]
      rw [foldDiscover_untouched pid depth currentYear now rest _ cid hnotin,
        discoverAdd_skip pid depth currentYear now st s cid hid hnone hrec]
      exact hnone
    · have hcid_rest : cid ∈ stubIds rest := by
        simp only [stubIds, List.mem_filterMap]
        exact ⟨s, he, hid⟩
      have hne : idOf s0 ≠ some cid := by
        intro he2
        have hids : stubIds (s0 :: rest) = cid :: stubIds rest := by
          simp [stubIds, List.filterMap_cons, he2]
        rw [hids] at hnd
        exact (List.nodup_cons.mp hnd).1 hcid_rest
      have hnd2 : (stubIds rest).Nodup := by
        cases hid0 : idOf s0 with
        | none =>
          have hids : stubIds (s0 :: rest) = stubIds rest := by
            simp [stubIds, List.filterMap_cons, hid0]
          rwa [hids] at hnd
        | some j =>
          have hids : stubIds (s0 :: rest) = j :: stubIds rest := by
            simp [stubIds, List.filterMap_cons, hid0]
          rw [hids] at hnd
          exact (List.nodup_cons.mp hnd).2
      simp only [List.foldl_cons]
      exact ih _ hnd2 he
        (foldDiscover_step_none pid depth currentYear now st s0 cid hnone hne)

theorem foldDiscover_memAdd (pid : String) (depth : Nat) (currentYear : Int)
    (now : String) (stubs : List S2Stub) (st : Store) (s : S2Stub)
    (cid : String) (hnd : (stubIds stubs).Nodup) (hs : s ∈ stubs)
    (hid : idOf s = some cid) (hnone : alookup st cid = none)
    (hrec : recentEnough currentYear s.year = true) :
    alookup (stubs.foldl (discoverAdd pid depth currentYear now) st) cid =
      some (mkPaperRecord cid (s.title.getD "Unknown") "citation" (some pid)
        s.abstract s.year s.venue s.authors s.url (depth + 1) now) := by
  induction stubs generalizing st with
  | nil => cases hs
  | cons s0 rest ih =>
    rcases List.mem_cons.mp hs with he | he
    · subst he
      have hids : stubIds (s :: rest) = cid :: stubIds rest := by
        simp [stubIds, List.filterMap_cons, hid]
      rw [hids] at hnd
      have hnotin : cid ∉ stubIds rest := (List.nodup_cons.mp hnd).1
      simp only [List.foldl_cons]
      rw [foldDiscover_untouched pid depth currentYear now rest _ cid hnotin,
        discoverAdd_new pid depth currentYear now st s cid hid hnone hrec]
      exact alookup_append_self st cid _ hnone
    · have hcid_rest : cid ∈ stubIds rest := by
        simp only [stubIds, List.mem_filterMap]
        exact ⟨s, he, hid⟩
      have hne : idOf s0 ≠ some cid := by
        intro he2
        have hids : stubIds (s0 :: rest) = cid :: stubIds rest := by
          simp [stubIds, List.filterMap_cons, he2]
        rw [hids] at hnd
        exact (List.nodup_cons.mp hnd).1 hcid_rest
      have hnd2 : (stubIds rest).Nodup := by
        cases hid0 : idOf s0 with
        | none =>
          have hids : stubIds (s0 :: rest) = stubIds rest := by
            simp [stubIds, List.filterMap_cons, hid0]
          rwa [hids] at hnd
        | some j =>
          have hids : stubIds (s0 :: rest) = j :: stubIds rest := by
            simp [stubIds, List.filterMap_cons, hid0]
          rw [hids] at hnd
          exact (List.nodup_cons.mp hnd).2
      simp only [List.foldl_cons]
      exact ih _ hnd2 he
        (foldDiscover_step_none pid depth currentYear now st s0 cid hnone hne)

/-- C10: the discovery sweep adds a previously-unseen citing paper only when
its year passes the recency gate: a stub with no year, or with a year below
`current_year - 1`, is skipped and never enters the store; a recent fresh stub
is added as a `"citation"` record at `depth + 1` pointing back at the checked
paper; and the checked paper's `citations_checked_at` watermark is stamped
regardless of how many stubs were added. -/
theorem C10_discover (st : Store) (pid : String) (depth : Nat)
    (currentYear : Int) (citations : List S2Stub) (now : String)
    (hnd : (stubIds citations).Nodup) :
    (∀ s ∈ citations, ∀ cid, idOf s = some cid → alookup st cid = none →
      (s.year = none ∨ ∃ y, s.year = some y ∧ y < currentYear - 1) →
      alookup (discoverStep st pid depth currentYear citations now) cid =
        none) ∧
    (∀ s ∈ citations, ∀ cid, idOf s = some cid → alookup st cid = none →
      recentEnough currentYear s.year = true →
      ∃ r, alookup (discoverStep st pid depth currentYear citations now) cid =
          some r ∧
        r.status =
          (if pyTruthy s.abstract then Status.fetched else Status.pending) ∧
        r.depth = depth + 1 ∧ r.source = "citation" ∧
        r.source_paper_id = some pid) ∧
    (∀ r0, alookup st pid = some r0 →
      alookup (discoverStep st pid depth currentYear citations now) pid =
        some { r0 with citations_checked_at := some now }) := by
  refine ⟨?_, ?_, ?_⟩
  · intro s hs cid hid hnone hyear
    have hrec : recentEnough currentYear s.year = false := by
      rcases hyear with h | ⟨y, hy, hlt⟩
      · simp [recentEnough, h]
      · have : ¬ (currentYear - 1 ≤ y) := by omega
        simp [recentEnough, hy, this]
    have hfold := foldDiscover_memSkip pid depth currentYear now citations st
      s cid hnd hs hid hnone hrec
    simp [discoverStep, set_citations_checked, alookup_aupdate, hfold]
  · intro s hs cid hid hnone hrec
    have hfold := foldDiscover_memAdd pid depth currentYear now citations st
      s cid hnd hs hid hnone hrec
    by_cases hq : cid = pid
    · subst hq
      refine ⟨{ (mkPaperRecord cid (s.title.getD "Unknown") "citation"
        (some cid) s.abstract s.year s.venue s.authors s.url (depth + 1) now)
          with citations_checked_at := some now },
        ?_, rfl, rfl, rfl, rfl⟩
      rw [discoverStep, set_citations_checked, alookup_aupdate, if_pos rfl,
        hfold, Option.map_some']
    · refine ⟨mkPaperRecord cid (s.title.getD "Unknown") "citation" (some pid)
        s.abstract s.year s.venue s.authors s.url (depth + 1) now,
        ?_, rfl, rfl, rfl, rfl⟩
      simp only [discoverStep, set_citations_checked, alookup_aupdate,
        if_neg hq]
      exact hfold
  · intro r0 hr0
    have hfold := foldDiscover_keeps pid depth currentYear now citations st
      pid (by simp [hr0])
    simp [discoverStep, set_citations_checked, alookup_aupdate, hfold, hr0]

/-- A citing stub whose year (2000) is too old for the discovery sweep. -/
def c10Stub : S2Stub :=
  { paperId := some "old1", title := some "Old", abstract := none,
    year := some 2000, venue := none, authors := [], url := none }

/-- Witness for C10: with current year 2026, the stale stub `c10Stub` is not
added to the store. -/
theorem C10_discover_witness :
    alookup (discoverStep c5Store "s" 0 2026 [c10Stub] "t") "old1" = none :=
  (C10_discover c5Store "s" 0 2026 [c10Stub] "t" (by decide)).1 c10Stub
    (by decide) "old1" (by decide) (by decide)
    (Or.inr ⟨2000, rfl, by decide⟩)

end MSP
